import Mathlib

/-!
Verification development for the reproxy routing-and-rewrite engine
(src/main.rs).  The Rust source is shallowly embedded: the `regex` crate is
modelled by a small executable matcher (`RE`, `reMatch`, `reFind`) covering
the pattern subset this development exercises (literals, `.`, `*`, `+`, `?`,
alternation, capture groups, `^`, `$`, escapes); patterns outside that
subset are rejected by `Regex.new`, exactly as genuinely malformed patterns
are.  The matcher implements leftmost-first search with greedy backtracking
preference, the documented semantics of the regex crate.  Machine-level
concerns (HTTP transport, async scheduling) enter only through explicit
oracle parameters.
-/

set_option maxRecDepth 8000

namespace Reproxy

/-- Abstract syntax of the supported regex subset. Capture groups carry the
index assigned by order of opening parenthesis (group 0 is the whole match). -/
inductive RE where
  | eps
  | lit (c : Char)
  | dot
  | seq (a b : RE)
  | alt (a b : RE)
  | star (a : RE)
  | group (idx : Nat) (a : RE)
  | bol
  | eol
deriving DecidableEq, Repr

def RE.size : RE → Nat
  | .eps | .lit _ | .dot | .bol | .eol => 1
  | .seq a b | .alt a b => a.size + b.size + 1
  | .star a => a.size + 1
  | .group _ a => a.size + 1

/-- Capture spans: (group index, start, end), most recent binding first. -/
abbrev Caps := List (Nat × Nat × Nat)

def setCap (idx s e : Nat) (caps : Caps) : Caps := (idx, s, e) :: caps

def capSpan (caps : Caps) (idx : Nat) : Option (Nat × Nat) :=
  (caps.find? (fun t => t.1 == idx)).map (fun t => t.2)

/-- Backtracking matcher in continuation style: attempts to match `re` at
position `pos` of `s`, calling `k` with the end position and captures of each
candidate in preference order (greedy repetition, left alternative first) —
the preference order of a Perl-style engine, which is also the order the
regex crate's leftmost-first semantics selects by.  `fuel` bounds recursion
depth; `reMatchFuel` below always suffices for the inputs evaluated here. -/
def reMatch (fuel : Nat) (re : RE) (s : List Char) (pos : Nat) (caps : Caps)
    (k : Nat → Caps → Option (Nat × Caps)) : Option (Nat × Caps) :=
  match fuel with
  | 0 => none
  | fuel + 1 =>
    match re with
    | .eps => k pos caps
    | .lit c =>
      match s.get? pos with
      | some c' => if c' = c then k (pos + 1) caps else none
      | none => none
    | .dot =>
      match s.get? pos with
      | some c' => if c' = '\n' then none else k (pos + 1) caps
      | none => none
    | .seq a b => reMatch fuel a s pos caps (fun p cs => reMatch fuel b s p cs k)
    | .alt a b =>
      match reMatch fuel a s pos caps k with
      | some r => some r
      | none => reMatch fuel b s pos caps k
    | .star a =>
      match reMatch fuel a s pos caps (fun p cs =>
          if pos < p then reMatch fuel (.star a) s p cs k else none) with
      | some r => some r
      | none => k pos caps
    | .group idx a => reMatch fuel a s pos caps (fun p cs => k p (setCap idx pos p cs))
    | .bol => if pos = 0 then k pos caps else none
    | .eol => if pos = s.length then k pos caps else none

def reMatchFuel (re : RE) (s : List Char) : Nat := (re.size + 2) * (s.length + 2) + 2

/-- Search for the leftmost match: try each start position from left to
right, as the regex crate's `find` does. Returns (start, end, captures);
group 0 records the whole match span. -/
def findAux (re : RE) (s : List Char) : Nat → Nat → Option (Nat × Nat × Caps)
  | _, 0 => none
  | pos, fuel + 1 =>
    match reMatch (reMatchFuel re s) re s pos [] (fun e cs => some (e, cs)) with
    | some (e, cs) => some (pos, e, setCap 0 pos e cs)
    | none => if pos < s.length then findAux re s (pos + 1) fuel else none

def reFind (re : RE) (s : List Char) : Option (Nat × Nat × Caps) :=
  findAux re s 0 (s.length + 1)

def nameChar (c : Char) : Bool := c.isAlphanum || c = '_'

def takeNameRun : List Char → List Char × List Char
  | [] => ([], [])
  | c :: rest =>
    if nameChar c then
      let (r, tail) := takeNameRun rest
      (c :: r, tail)
    else ([], c :: rest)

def parseDecimal (cs : List Char) : Option Nat :=
  if cs ≠ [] ∧ cs.all (·.isDigit) then
    some (cs.foldl (fun acc c => acc * 10 + (c.toNat - 48)) 0)
  else none

/-- Replacement-template expansion, following the regex crate: `$$` is a
literal `$`; `$` followed by the longest run of word characters names a
group (all digits: by index); an unknown or unset group expands to the empty
string; a `$` followed by no word character stays literal. -/
def expandAux (s : List Char) (caps : Caps) : Nat → List Char → List Char
  | 0, _ => []
  | _, [] => []
  | fuel + 1, '$' :: rest =>
    match rest with
    | '$' :: rest2 => '$' :: expandAux s caps fuel rest2
    | _ =>
      let (nm, tail) := takeNameRun rest
      if nm = [] then '$' :: expandAux s caps fuel rest
      else
        let txt := match parseDecimal nm with
          | some idx =>
            match capSpan caps idx with
            | some (st, en) => (s.drop st).take (en - st)
            | none => []
          | none => []
        txt ++ expandAux s caps fuel tail
  | fuel + 1, c :: rest => c :: expandAux s caps fuel rest

def expandTemplate (tmpl s : List Char) (caps : Caps) : List Char :=
  expandAux s caps (tmpl.length + 1) tmpl

/-- Compiled regular expression (the model of `regex::Regex`). -/
structure Regex where
  ast : RE
deriving DecidableEq, Repr

def Regex.findIn (r : Regex) (s : String) : Option (Nat × Nat × Caps) :=
  reFind r.ast s.data

/-- Model of `Regex::is_match`: true iff the pattern matches anywhere in `s`. -/
def Regex.is_match (r : Regex) (s : String) : Bool := (r.findIn s).isSome

/-- Model of `Regex::replace`: substitute the first (leftmost) match with the
capture-expanded template; with no match the haystack is returned unchanged. -/
def Regex.replace (r : Regex) (s tmpl : String) : String :=
  match r.findIn s with
  | none => s
  | some (st, en, caps) =>
    String.mk (s.data.take st ++ expandTemplate tmpl.data s.data caps ++ s.data.drop en)

def applyRep (a : RE) : Char → RE
  | '*' => .star a
  | '+' => .seq a (.star a)
  | '?' => .alt a .eps
  | _ => a

def isRepChar (c : Char) : Bool := c = '*' || c = '+' || c = '?'

def parseRep (a : RE) (cs : List Char) : Except String (RE × List Char) :=
  match cs with
  | c :: rest =>
    if isRepChar c then
      match rest with
      | c2 :: _ =>
        if isRepChar c2 then .error "repetition operator applied to repetition"
        else .ok (applyRep a c, rest)
      | [] => .ok (applyRep a c, rest)
    else .ok (a, cs)
  | [] => .ok (a, [])

mutual

def parseAltF : Nat → List Char → Nat → Except String (RE × List Char × Nat)
  | 0, _, _ => .error "pattern too deeply nested"
  | fuel + 1, cs, g => do
    let (a, cs1, g1) ← parseSeqF fuel cs g
    match cs1 with
    | '|' :: rest => do
      let (b, cs2, g2) ← parseAltF fuel rest g1
      .ok (.alt a b, cs2, g2)
    | _ => .ok (a, cs1, g1)

def parseSeqF : Nat → List Char → Nat → Except String (RE × List Char × Nat)
  | 0, _, _ => .error "pattern too deeply nested"
  | fuel + 1, cs, g =>
    match cs with
    | [] => .ok (.eps, [], g)
    | ')' :: _ => .ok (.eps, cs, g)
    | '|' :: _ => .ok (.eps, cs, g)
    | _ => do
      let (a, cs1, g1) ← parseAtomF fuel cs g
      let (a2, cs2) ← parseRep a cs1
      let (b, cs3, g3) ← parseSeqF fuel cs2 g1
      .ok (.seq a2 b, cs3, g3)

def parseAtomF : Nat → List Char → Nat → Except String (RE × List Char × Nat)
  | 0, _, _ => .error "pattern too deeply nested"
  | fuel + 1, cs, g =>
    match cs with
    | [] => .error "unexpected end of pattern"
    | '(' :: rest => do
      let idx := g + 1
      let (a, cs1, g1) ← parseAltF fuel rest idx
      match cs1 with
      | ')' :: cs2 => .ok (.group idx a, cs2, g1)
      | _ => .error "unclosed group"
    | ')' :: _ => .error "unopened group"
    | '*' :: _ => .error "repetition operator missing expression"
    | '+' :: _ => .error "repetition operator missing expression"
    | '?' :: _ => .error "repetition operator missing expression"
    | '[' :: _ => .error "unsupported character class"
    | '^' :: rest => .ok (.bol, rest, g)
    | '$' :: rest => .ok (.eol, rest, g)
    | '.' :: rest => .ok (.dot, rest, g)
    | '\\' :: c :: rest => .ok (.lit c, rest, g)
    | '\\' :: [] => .error "incomplete escape sequence"
    | c :: rest => .ok (.lit c, rest, g)

end

/-- Model of `Regex::new`: compile a pattern or report an error; the error
message carries the offending pattern, as the regex crate's errors do. -/
def Regex.new (pat : String) : Except String Regex :=
  match parseAltF (3 * pat.length + 8) pat.data 0 with
  | .error e => .error ("regex parse error: " ++ pat ++ ": " ++ e)
  | .ok (re, [], _) => .ok ⟨re⟩
  | .ok (_, _, _) => .error ("regex parse error: " ++ pat ++ ": unopened group")

/-! ## Configuration data model (`Config`, `ProxyItemConfig`, `ProxyHeaderConfig`)

The Rust source deserializes the YAML file into `HashMap`s.  A `HashMap` is
embedded as the association list produced by its iteration (`.iter()`), so a
`Config` value here fixes both the entries and the order `parse_config`
visits them in.  The field `r#match` is spelled `rmatch` (Lean reserves
`match`). -/

inductive ProxyHeaderConfig where
  | Passthrough
  | Ignore
  | Replace (rmatch : String) (replace : String)
deriving DecidableEq, Repr

structure ProxyItemConfig where
  rmatch : String
  target : String
  follow_redirect : Bool
  headers : List (String × ProxyHeaderConfig)
deriving DecidableEq, Repr

structure Config where
  items : List (String × ProxyItemConfig)
deriving DecidableEq, Repr

inductive HeaderAction where
  | Passthrough
  | Ignore
  | Replace (regex : Regex) (replace : String)
deriving DecidableEq, Repr

structure ProxyItem where
  name : String
  regex : Regex
  replace : String
  follow_redirect : Bool
  header_actions : List (String × HeaderAction)
  header_action_fallback : HeaderAction
deriving DecidableEq, Repr

/-- Model of `HashMap::insert` on the association-list embedding of
`ProxyItem.header_actions`: overwrite an existing binding, else append. -/
def insertAssoc (m : List (String × HeaderAction)) (k : String) (v : HeaderAction) :
    List (String × HeaderAction) :=
  match m with
  | [] => [(k, v)]
  | (k', v') :: rest => if k' = k then (k, v) :: rest else (k', v') :: insertAssoc rest k v

/-- Model of `HashMap::get` on the association-list embedding. -/
def lookupAssoc (m : List (String × HeaderAction)) (k : String) : Option HeaderAction :=
  match m with
  | [] => none
  | (k', v') :: rest => if k' = k then some v' else lookupAssoc rest k

/-- Model of Rust's `str::to_lowercase` on the (ASCII) header names this
development handles, written as a character-wise map so the kernel can
evaluate it. -/
def lowerStr (s : String) : String := String.mk (s.data.map Char.toLower)

def compileHeaderAction : ProxyHeaderConfig → Except String HeaderAction
  | .Passthrough => .ok .Passthrough
  | .Ignore => .ok .Ignore
  | .Replace m r =>
    match Regex.new m with
    | .ok re => .ok (.Replace re r)
    | .error e => .error e

/-- The header loop of `parse_config` (src/main.rs lines 85-101): compile
each header's action in iteration order; the key `"$default"` (compared
before lower-casing, as in the source) sets the fallback, every other key is
lower-cased and inserted (last write wins). -/
def compileHeaders : List (String × ProxyHeaderConfig) → List (String × HeaderAction) →
    HeaderAction → Except String (List (String × HeaderAction) × HeaderAction)
  | [], acts, fb => .ok (acts, fb)
  | (hn, cfg) :: rest, acts, fb => do
    let act ← compileHeaderAction cfg
    if hn = "$default" then compileHeaders rest acts act
    else compileHeaders rest (insertAssoc acts (lowerStr hn) act) fb

def compileItems : List (String × ProxyItemConfig) → Except String (List ProxyItem)
  | [] => .ok []
  | (name, item) :: rest => do
    let re ← Regex.new item.rmatch
    let (acts, fb) ← compileHeaders item.headers [] .Ignore
    let tail ← compileItems rest
    .ok (⟨name, re, item.target, item.follow_redirect, acts, fb⟩ :: tail)

/-- Model of `parse_config` (src/main.rs lines 80-112): rules are compiled in
the input iteration order; any regex compilation error aborts the whole run
via `?`, so no partial rule list can be returned. -/
def parse_config (config : Config) : Except String (List ProxyItem) :=
  compileItems config.items

/-! ## Request handling (`handle_request` / `handle`, src/main.rs lines 118-223)

Header values are byte strings (`List Nat`), as in `http::HeaderValue`;
`to_str` models `HeaderValue::to_str`, which succeeds only on visible-ASCII
bytes.  The upstream (`reqwest::Client::execute`) is an oracle parameter:
`Except.error` is a transport failure, `Except.ok` the upstream response.
The `dispatched` field records the outbound request actually executed
(`none` = zero upstream calls).  `reqwest`'s deferred header-value errors
(invalid bytes produced by a `Replace` substitution surface only at
`builder.build()`) are modelled by the `buildErr` component. -/

def visibleAsciiByte (b : Nat) : Bool := (32 ≤ b && b < 127) || b == 9

def headerValueByteOk (b : Nat) : Bool := (32 ≤ b && b != 127) || b == 9

def strBytes (s : String) : List Nat := s.data.map (·.toNat)

/-- Model of `HeaderValue::to_str`: succeeds iff every byte is visible ASCII
(or tab). -/
def to_str (v : List Nat) : Option String :=
  if v.all visibleAsciiByte then some (String.mk (v.map Char.ofNat)) else none

/-- Header-policy resolution as the source performs it per header
(src/main.rs lines 160-164): look up the lower-cased name, fall back to the
rule's default action. -/
def resolveAction (item : ProxyItem) (header_name : String) : HeaderAction :=
  (lookupAssoc item.header_actions (lowerStr header_name)).getD item.header_action_fallback

inductive HeadersOutcome where
  | ok (outbound : List (String × List Nat)) (buildErr : Option String)
  | reject (headerName : String)
  | errValue (msg : String)
deriving DecidableEq, Repr

def pushHeader (hn : String) (hv : List Nat) : HeadersOutcome → HeadersOutcome
  | .ok out be => .ok ((hn, hv) :: out) be
  | r => r

/-- Deferred `reqwest` builder error for a substituted header value whose
bytes are not a legal `HeaderValue`. -/
def outValueErr (s : String) : Option String :=
  if (strBytes s).all headerValueByteOk then none else some "invalid header value"

def pushReplaced (hn : String) (newv : String) : HeadersOutcome → HeadersOutcome
  | .ok out be => .ok ((hn, strBytes newv) :: out) (outValueErr newv <|> be)
  | r => r

/-- The header loop of `handle` (src/main.rs lines 159-189), processing
inbound headers in order: `Passthrough` copies the header, `Ignore` drops
it, `Replace` substitutes the first regex match in the value — a value that
is not a string aborts with an error (the `to_str()?`), a value the regex
does not match rejects the request (the 400 branch, recording the
lower-cased header name). -/
def processHeaders (item : ProxyItem) : List (String × List Nat) → HeadersOutcome
  | [] => .ok [] none
  | (hn, hv) :: rest =>
    match resolveAction item hn with
    | .Passthrough => pushHeader hn hv (processHeaders item rest)
    | .Ignore => processHeaders item rest
    | .Replace re rep =>
      match to_str hv with
      | none => .errValue "failed to convert header to a str"
      | some v =>
        if re.is_match v then pushReplaced hn (re.replace v rep) (processHeaders item rest)
        else .reject (lowerStr hn)

inductive LogLevel where
  | info
  | err
deriving DecidableEq, Repr

/-- One structured `tracing` record; absent fields are `none`. -/
structure LogRecord where
  level : LogLevel
  method : String
  requested : String
  matched : Option String
  forwarded : Option String
  status : Option Nat
  errDetail : Option String
  unmatched_header : Option String
deriving DecidableEq, Repr

structure Request where
  method : String
  uri : String
  headers : List (String × List Nat)
deriving DecidableEq, Repr

structure UpstreamResp where
  status : Nat
  headers : List (String × List Nat)
deriving DecidableEq, Repr

inductive RespBody where
  | empty
  | streamed
deriving DecidableEq, Repr

structure Response where
  status : Nat
  headers : List (String × List Nat)
  body : RespBody
deriving DecidableEq, Repr

structure OutboundRequest where
  method : String
  url : String
  headers : List (String × List Nat)
deriving DecidableEq, Repr

deriving instance DecidableEq for Except

structure HandleResult where
  response : Except String Response
  logs : List LogRecord
  dispatched : Option OutboundRequest
deriving DecidableEq, Repr

/-- Model of the router (src/main.rs lines 145-148): the first compiled rule
whose regex matches anywhere in the composed URL. -/
def route (items : List ProxyItem) (url : String) : Option ProxyItem :=
  items.find? (fun item => item.regex.is_match url)

/-- Model of the inner `handle` (src/main.rs lines 139-222).  The composed
URL is `host ++ request-target`; on a match the target URL is the
first-match replacement; `reqwest::Client::builder().build()` is modelled as
infallible (its failure modes are environmental, not input-dependent).
`Except.error` results are the `anyhow` errors the source propagates with
`?`, converted to a 500 by `handle_request` below. -/
def handle (items : List ProxyItem) (host : String) (req : Request)
    (upstream : Except String UpstreamResp) : HandleResult :=
  let url := host ++ req.uri
  match route items url with
  | some item =>
    let target_url := item.regex.replace url item.replace
    match processHeaders item req.headers with
    | .reject lname =>
      ⟨.ok ⟨400, [], .empty⟩,
       [⟨.err, req.method, url, some item.name, none, some 400, none, some lname⟩], none⟩
    | .errValue msg => ⟨.error msg, [], none⟩
    | .ok outbound buildErr =>
      match buildErr with
      | some e => ⟨.error e, [], none⟩
      | none =>
        match upstream with
        | .error e =>
          ⟨.error e,
           [⟨.err, req.method, url, some item.name, some target_url, none, some e, none⟩],
           some ⟨req.method, target_url, outbound⟩⟩
        | .ok ur =>
          ⟨.ok ⟨ur.status, ur.headers, .streamed⟩,
           [⟨.info, req.method, url, some item.name, some target_url, some ur.status, none, none⟩],
           some ⟨req.method, target_url, outbound⟩⟩
  | none =>
    ⟨.ok ⟨404, [], .empty⟩, [⟨.info, req.method, url, none, none, some 404, none, none⟩], none⟩

structure FinalResult where
  response : Response
  logs : List LogRecord
  dispatched : Option OutboundRequest
deriving DecidableEq, Repr

/-- Model of the outer `handle_request` (src/main.rs lines 119-137): an error
from `handle` is logged — with `requested` set to the bare request-target,
as in the source — and converted to an empty 500 response. -/
def handle_request (items : List ProxyItem) (host : String) (req : Request)
    (upstream : Except String UpstreamResp) : FinalResult :=
  match handle items host req upstream with
  | ⟨.ok resp, logs, d⟩ => ⟨resp, logs, d⟩
  | ⟨.error e, logs, d⟩ =>
    ⟨⟨500, [], .empty⟩, logs ++ [⟨.err, req.method, req.uri, none, none, some 500, some e, none⟩], d⟩

/-! ## Auxiliary predicates and demo values used by the theorems below -/

/-- True when a pattern string fails to compile. -/
def regexBad (p : String) : Bool :=
  match Regex.new p with
  | .error _ => true
  | .ok _ => false

def headerCfgBad : ProxyHeaderConfig → Bool
  | .Replace m _ => regexBad m
  | _ => false

/-- A rule definition containing at least one invalid pattern. -/
def itemCfgBad (c : ProxyItemConfig) : Bool :=
  regexBad c.rmatch || c.headers.any (fun h => headerCfgBad h.2)

def exceptIsOk : Except String (List ProxyItem) → Bool
  | .ok _ => true
  | .error _ => false

def headerPatterns (l : List (String × ProxyHeaderConfig)) : List String :=
  l.filterMap (fun h =>
    match h.2 with
    | .Replace m _ => some m
    | _ => none)

/-- All pattern strings a rule definition asks to compile. -/
def cfgPatterns (c : ProxyItemConfig) : List String :=
  c.rmatch :: headerPatterns c.headers

def patternsOfList (l : List (String × ProxyItemConfig)) : List String :=
  (l.map (fun e => cfgPatterns e.2)).flatten

def listStartsWith : List Char → List Char → Bool
  | _, [] => true
  | [], _ :: _ => false
  | c :: cs, d :: ds => c == d && listStartsWith cs ds

def listContainsSub (hay needle : List Char) : Bool :=
  match hay with
  | [] => listStartsWith [] needle
  | _ :: rest => listStartsWith hay needle || listContainsSub rest needle

/-- Substring test used to talk about the content of error messages. -/
def strContains (hay needle : String) : Bool := listContainsSub hay.data needle.data

def configPatterns (cfg : Config) : List String := patternsOfList cfg.items

/-- Boolean checker: compilation failed and the error message contains one of
the configuration's own failing pattern strings. -/
def errorNamesPattern (cfg : Config) : Bool :=
  match parse_config cfg with
  | .error e => (configPatterns cfg).any (fun p => regexBad p && strContains e p)
  | .ok _ => false

/-- A header whose processing step neither rejects nor errors: any
non-`Replace` action, or a `Replace` whose value is a string the regex
matches. -/
def headerOk (item : ProxyItem) (h : String × List Nat) : Bool :=
  match resolveAction item h.1 with
  | .Replace re _ =>
    match to_str h.2 with
    | some v => re.is_match v
    | none => false
  | _ => true

def litRE (s : String) : RE := s.data.foldr (fun c acc => .seq (.lit c) acc) .eps

def demoItem : ProxyItem := ⟨"all", ⟨.star .dot⟩, "http://up", false, [], .Ignore⟩

def demoItemB : ProxyItem := ⟨"second", ⟨.star .dot⟩, "http://up2", false, [], .Ignore⟩

def demoReq : Request := ⟨"GET", "/u", []⟩

def demoItemHdr : ProxyItem :=
  ⟨"hdr", ⟨.star .dot⟩, "t", false, [("x-drop", .Ignore), ("x-keep", .Passthrough)], .Ignore⟩

def demoItemRepl : ProxyItem :=
  ⟨"sec", ⟨.star .dot⟩, "t", false, [("x-token", .Replace ⟨litRE "secret"⟩ "ok")], .Passthrough⟩

def cfgBadDemo : Config :=
  ⟨[("api", ⟨"^ok", "t1", false, []⟩), ("broken", ⟨"(", "t2", false, []⟩)]⟩

def cfgGoodDemo : Config :=
  ⟨[("a", ⟨"", "tx", false, []⟩), ("b", ⟨"", "ty", true, []⟩)]⟩

/-! ## Theorems -/

theorem find_first_index {α : Type} (p : α → Bool) (l : List α) (i : Nat) (hi : i < l.length)
    (hp : p (l.get ⟨i, hi⟩) = true)
    (hlt : ∀ j (hj : j < i), p (l.get ⟨j, Nat.lt_trans hj hi⟩) = false) :
    l.find? p = some (l.get ⟨i, hi⟩) := by
  induction l generalizing i with
  | nil => exact absurd hi (Nat.not_lt_zero i)
  | cons a t ih =>
    cases i with
    | zero => simp [List.find?, show p a = true from hp]
    | succ n =>
      have ha : p a = false := hlt 0 (Nat.succ_pos n)
      have hn : n < t.length := Nat.lt_of_succ_lt_succ hi
      have := ih n hn hp (fun j hj => hlt (j + 1) (Nat.succ_lt_succ hj))
      simpa [List.find?, ha] using this

/-- C1: for every compiled rule sequence and composed URL `host ++ target`,
the router returns `none` exactly when no rule's regex matches anywhere in
the URL, and whenever rule `i` matches while every earlier rule does not,
the router returns rule `i` — so of two matching rules the one compiled
earlier wins. -/
theorem route_first_match_wins (items : List ProxyItem) (host target : String) :
    (route items (host ++ target) = none ↔
      ∀ item ∈ items, item.regex.is_match (host ++ target) = false) ∧
    (∀ i (hi : i < items.length),
      (items.get ⟨i, hi⟩).regex.is_match (host ++ target) = true →
      (∀ j (hj : j < i),
        (items.get ⟨j, Nat.lt_trans hj hi⟩).regex.is_match (host ++ target) = false) →
      route items (host ++ target) = some (items.get ⟨i, hi⟩)) := by
  constructor
  · simp [route, List.find?_eq_none]
  · intro i hi hp hlt
    exact find_first_index (fun item => item.regex.is_match (host ++ target)) items i hi hp hlt

theorem route_first_match_wins_witness :
    route [demoItem, demoItemB] ("h" ++ "/u") = some demoItem :=
  (route_first_match_wins [demoItem, demoItemB] "h" "/u").2 0 (by decide) (by decide)
    (fun j hj => absurd hj (Nat.not_lt_zero j))

/-- C5: a request whose composed URL matches no compiled rule yields exactly
a 404 response with empty body, no upstream call, and a single
informational-level log record carrying method, composed URL and status. -/
theorem no_match_404 (items : List ProxyItem) (host : String) (req : Request)
    (upstream : Except String UpstreamResp)
    (h : route items (host ++ req.uri) = none) :
    handle_request items host req upstream =
      ⟨⟨404, [], .empty⟩,
       [⟨.info, req.method, host ++ req.uri, none, none, some 404, none, none⟩], none⟩ := by
  simp only [handle_request, handle, h]

theorem no_match_404_witness :
    handle_request [] "h" demoReq (.ok ⟨200, []⟩) =
      ⟨⟨404, [], .empty⟩,
       [⟨.info, demoReq.method, "h" ++ demoReq.uri, none, none, some 404, none, none⟩], none⟩ :=
  no_match_404 [] "h" demoReq (.ok ⟨200, []⟩) rfl

theorem compileItems_names (l : List (String × ProxyItemConfig)) (items : List ProxyItem)
    (h : compileItems l = .ok items) :
    items.map (fun it => it.name) = l.map (fun e => e.1) := by
  induction l generalizing items with
  | nil =>
    simp only [compileItems] at h
    cases h
    simp
  | cons a t ih =>
    obtain ⟨name, item⟩ := a
    cases hre : Regex.new item.rmatch with
    | error e => simp [compileItems, hre, Bind.bind, Except.bind] at h
    | ok re =>
      cases hch : compileHeaders item.headers [] .Ignore with
      | error e => simp [compileItems, hre, hch, Bind.bind, Except.bind] at h
      | ok pair =>
        obtain ⟨acts, fb⟩ := pair
        cases hti : compileItems t with
        | error e => simp [compileItems, hre, hch, hti, Bind.bind, Except.bind] at h
        | ok tail =>
          simp only [compileItems, hre, hch, hti, Bind.bind, Except.bind] at h
          cases h
          simp only [List.map]
          exact congrArg _ (ih tail hti)

/-- C7: compilation is a deterministic function of the input mapping's
iteration sequence and preserves its order exactly — the compiled rules are
named in the same order as the input entries — so a fixed rule set gives the
router (a pure function) the same answer on every invocation. -/
theorem parse_config_preserves_order (cfg : Config) (items : List ProxyItem)
    (h : parse_config cfg = .ok items) :
    items.map (fun it => it.name) = cfg.items.map (fun e => e.1) :=
  compileItems_names cfg.items items h

theorem parse_config_preserves_order_witness :
    ([⟨"a", ⟨.eps⟩, "tx", false, [], .Ignore⟩,
      ⟨"b", ⟨.eps⟩, "ty", true, [], .Ignore⟩] : List ProxyItem).map (fun it => it.name) =
      cfgGoodDemo.items.map (fun e => e.1) :=
  parse_config_preserves_order cfgGoodDemo
    [⟨"a", ⟨.eps⟩, "tx", false, [], .Ignore⟩, ⟨"b", ⟨.eps⟩, "ty", true, [], .Ignore⟩] rfl

theorem compileHeaders_no_default_fallback (l : List (String × ProxyHeaderConfig)) :
    ∀ (acts acts' : List (String × HeaderAction)) (fb fb' : HeaderAction),
      (∀ k ∈ l, k.1 ≠ "$default") →
      compileHeaders l acts fb = .ok (acts', fb') → fb' = fb := by
  induction l with
  | nil =>
    intro acts acts' fb fb' _ h
    simp only [compileHeaders] at h
    cases h
    rfl
  | cons a rest ih =>
    obtain ⟨hn, hc⟩ := a
    intro acts acts' fb fb' hnd h
    cases hca : compileHeaderAction hc with
    | error e => simp [compileHeaders, hca, Bind.bind, Except.bind] at h
    | ok act =>
      have hne : ¬ (hn = "$default") := hnd (hn, hc) (List.mem_cons_self _ _)
      simp only [compileHeaders, hca, Bind.bind, Except.bind, if_neg hne] at h
      exact ih _ _ _ _ (fun k hk => hnd k (List.mem_cons_of_mem _ hk)) h

/-- C3: per header, the applied action is the entry found by looking up the
lower-cased header name in the rule's action table, falling back to the
rule's default action when absent; compiling a definition with no
`"$default"` key leaves the fallback `Ignore`; an `Ignore` resolution drops
the header entirely and a `Passthrough` resolution copies it unchanged. -/
theorem header_action_resolution :
    (∀ (item : ProxyItem) (hn : String) (a : HeaderAction),
      lookupAssoc item.header_actions (lowerStr hn) = some a → resolveAction item hn = a) ∧
    (∀ (item : ProxyItem) (hn : String),
      lookupAssoc item.header_actions (lowerStr hn) = none →
      resolveAction item hn = item.header_action_fallback) ∧
    (∀ (l : List (String × ProxyHeaderConfig)) (acts' : List (String × HeaderAction))
      (fb' : HeaderAction), (∀ k ∈ l, k.1 ≠ "$default") →
      compileHeaders l [] .Ignore = .ok (acts', fb') → fb' = .Ignore) ∧
    (∀ (item : ProxyItem) (hn : String) (hv : List Nat) (rest : List (String × List Nat)),
      resolveAction item hn = .Ignore →
      processHeaders item ((hn, hv) :: rest) = processHeaders item rest) ∧
    (∀ (item : ProxyItem) (hn : String) (hv : List Nat) (rest : List (String × List Nat)),
      resolveAction item hn = .Passthrough →
      processHeaders item ((hn, hv) :: rest) = pushHeader hn hv (processHeaders item rest)) := by
  refine ⟨?_, ?_, ?_, ?_, ?_⟩
  · intro item hn a h
    simp [resolveAction, h]
  · intro item hn h
    simp [resolveAction, h]
  · intro l acts' fb' hnd h
    exact compileHeaders_no_default_fallback l [] acts' .Ignore fb' hnd h
  · intro item hn hv rest h
    simp [processHeaders, h]
  · intro item hn hv rest h
    simp [processHeaders, h]

theorem header_action_resolution_witness :
    resolveAction demoItemHdr "X-Keep" = .Passthrough ∧
    resolveAction demoItemHdr "X-Missing" = demoItemHdr.header_action_fallback ∧
    HeaderAction.Ignore = HeaderAction.Ignore ∧
    processHeaders demoItemHdr [("X-Drop", [65])] = processHeaders demoItemHdr [] ∧
    processHeaders demoItemHdr [("X-Keep", [65])] =
      pushHeader "X-Keep" [65] (processHeaders demoItemHdr []) :=
  ⟨header_action_resolution.1 demoItemHdr "X-Keep" .Passthrough (by decide),
   header_action_resolution.2.1 demoItemHdr "X-Missing" (by decide),
   header_action_resolution.2.2.1 [("x-keep", .Passthrough)] [("x-keep", .Passthrough)]
     .Ignore (by decide) (by decide),
   header_action_resolution.2.2.2.1 demoItemHdr "X-Drop" [65] [] (by decide),
   header_action_resolution.2.2.2.2 demoItemHdr "X-Keep" [65] [] (by decide)⟩

def fooRe : Regex :=
  match Regex.new "foo" with
  | .ok r => r
  | .error _ => ⟨.eps⟩

def apiRe : Regex :=
  match Regex.new "^example.com/api/(.*)$" with
  | .ok r => r
  | .error _ => ⟨.eps⟩

def domainRe : Regex :=
  match Regex.new "example.com" with
  | .ok r => r
  | .error _ => ⟨.eps⟩

/-- C10: a header resolving to `Replace` whose regex matches the value has
only the first occurrence substituted: the outbound value is
`re.replace value template`, and whenever the regex finds its first match at
span (st, en), the replacement keeps the text before st and after en — any
later occurrence — verbatim; concretely, pattern "foo" with template "bar"
turns header value "foo,foo" into "bar,foo". -/
theorem header_replace_first_occurrence :
    (∀ (item : ProxyItem) (hn : String) (hv : List Nat) (rest : List (String × List Nat))
      (v : String) (re : Regex) (rep : String),
      resolveAction item hn = .Replace re rep → to_str hv = some v → re.is_match v = true →
      processHeaders item ((hn, hv) :: rest) =
        pushReplaced hn (re.replace v rep) (processHeaders item rest)) ∧
    (∀ (re : Regex) (s tmpl : String) (st en : Nat) (caps : Caps),
      re.findIn s = some (st, en, caps) →
      (re.replace s tmpl).data =
        s.data.take st ++ expandTemplate tmpl.data s.data caps ++ s.data.drop en) ∧
    (Regex.new "foo" = .ok fooRe ∧ fooRe.replace "foo,foo" "bar" = "bar,foo") := by
  refine ⟨?_, ?_, rfl, by decide⟩
  · intro item hn hv rest v re rep h1 h2 h3
    simp [processHeaders, h1, h2, h3]
  · intro re s tmpl st en caps h
    simp [Regex.replace, h]

theorem header_replace_first_occurrence_witness :
    processHeaders demoItemRepl [("X-Token", strBytes "xsecretx")] =
      pushReplaced "X-Token" ((⟨litRE "secret"⟩ : Regex).replace "xsecretx" "ok")
        (processHeaders demoItemRepl []) ∧
    (fooRe.replace "foo,foo" "bar").data =
      ("foo,foo".data.take 0 ++ expandTemplate "bar".data "foo,foo".data [(0, 0, 3)] ++
        "foo,foo".data.drop 3) :=
  ⟨header_replace_first_occurrence.1 demoItemRepl "X-Token" (strBytes "xsecretx") []
     "xsecretx" ⟨litRE "secret"⟩ "ok" (by decide) (by decide) (by decide),
   header_replace_first_occurrence.2.1 fooRe "foo,foo" "bar" 0 3 [(0, 0, 3)] (by decide)⟩

/-- C2: whenever a rule matches, the outbound request the handler dispatches
goes to `item.regex.replace url item.replace` — the composed URL with only
its first regex match substituted by the capture-expanded target template;
concretely, match `^example.com/api/(.*)$` with target `http://backend/$1`
rewrites `example.com/api/users/7` to `http://backend/users/7`, and an
unanchored match `example.com` on `example.com/x?u=example.com` rewrites
only the first occurrence. -/
theorem target_url_rewrite :
    (∀ (items : List ProxyItem) (host : String) (req : Request)
      (upstream : Except String UpstreamResp) (item : ProxyItem) (ob : OutboundRequest),
      route items (host ++ req.uri) = some item →
      (handle items host req upstream).dispatched = some ob →
      ob.url = item.regex.replace (host ++ req.uri) item.replace) ∧
    (Regex.new "^example.com/api/(.*)$" = .ok apiRe ∧
      apiRe.replace "example.com/api/users/7" "http://backend/$1" = "http://backend/users/7") ∧
    (Regex.new "example.com" = .ok domainRe ∧
      domainRe.replace "example.com/x?u=example.com" "http://up" = "http://up/x?u=example.com") := by
  refine ⟨?_, ⟨rfl, by decide⟩, ⟨rfl, by decide⟩⟩
  intro items host req upstream item ob hroute hdisp
  simp only [handle, hroute] at hdisp
  cases hph : processHeaders item req.headers with
  | reject l => rw [hph] at hdisp; simp at hdisp
  | errValue m => rw [hph] at hdisp; simp at hdisp
  | ok out be =>
    rw [hph] at hdisp
    cases be with
    | some e => simp at hdisp
    | none =>
      cases upstream with
      | error e =>
        simp only [Option.some.injEq] at hdisp
        rw [← hdisp]
      | ok ur =>
        simp only [Option.some.injEq] at hdisp
        rw [← hdisp]

theorem target_url_rewrite_witness :
    (⟨"GET", "http://up", []⟩ : OutboundRequest).url =
      demoItem.regex.replace ("h" ++ "/u") demoItem.replace :=
  target_url_rewrite.1 [demoItem] "h" demoReq (.ok ⟨200, []⟩) demoItem
    ⟨"GET", "http://up", []⟩ rfl rfl

theorem processHeaders_append_ok (item : ProxyItem) (pre tail : List (String × List Nat))
    (hok : ∀ x ∈ pre, headerOk item x = true) :
    ∃ out be, processHeaders item (pre ++ tail) =
      match processHeaders item tail with
      | .ok o b => .ok (out ++ o) (match be with | some e => some e | none => b)
      | .reject h => .reject h
      | .errValue m => .errValue m := by
  induction pre with
  | nil =>
    refine ⟨[], none, ?_⟩
    simp only [List.nil_append]
    cases processHeaders item tail <;> simp
  | cons x pre ih =>
    obtain ⟨hout, hbe, heq⟩ := ih (fun y hy => hok y (List.mem_cons_of_mem _ hy))
    obtain ⟨hn, hv⟩ := x
    have hx : headerOk item (hn, hv) = true := hok _ (List.mem_cons_self _ _)
    unfold headerOk at hx
    cases hact : resolveAction item hn with
    | Passthrough =>
      refine ⟨(hn, hv) :: hout, hbe, ?_⟩
      simp only [List.cons_append, processHeaders, hact, List.append_eq]
      rw [heq]
      cases processHeaders item tail <;> cases hbe <;> simp [pushHeader]
    | Ignore =>
      refine ⟨hout, hbe, ?_⟩
      simp only [List.cons_append, processHeaders, hact]
      exact heq
    | Replace re rep =>
      rw [hact] at hx
      cases hts : to_str hv with
      | none => rw [hts] at hx; simp at hx
      | some v =>
        rw [hts] at hx
        simp only [] at hx
        have hx : re.is_match v = true := hx
        refine ⟨(hn, strBytes (re.replace v rep)) :: hout,
          (outValueErr (re.replace v rep) <|> hbe), ?_⟩
        simp only [List.cons_append, processHeaders, hact, hts, hx, if_true, List.append_eq]
        rw [heq]
        cases processHeaders item tail <;>
          cases houv : outValueErr (re.replace v rep) <;>
            cases hbe <;>
              simp [pushReplaced, houv, Option.some_orElse, Option.none_orElse]

theorem processHeaders_split_reject (item : ProxyItem) (pre rest : List (String × List Nat))
    (hn : String) (hv : List Nat) (re : Regex) (rep v : String)
    (hok : ∀ x ∈ pre, headerOk item x = true)
    (hact : resolveAction item hn = .Replace re rep)
    (hts : to_str hv = some v)
    (hnm : re.is_match v = false) :
    processHeaders item (pre ++ (hn, hv) :: rest) = .reject (lowerStr hn) := by
  obtain ⟨out, be, heq⟩ := processHeaders_append_ok item pre ((hn, hv) :: rest) hok
  rw [heq]
  simp [processHeaders, hact, hts, hnm]

theorem processHeaders_split_errValue (item : ProxyItem) (pre rest : List (String × List Nat))
    (hn : String) (hv : List Nat) (re : Regex) (rep : String)
    (hok : ∀ x ∈ pre, headerOk item x = true)
    (hact : resolveAction item hn = .Replace re rep)
    (hbad : to_str hv = none) :
    processHeaders item (pre ++ (hn, hv) :: rest) =
      .errValue "failed to convert header to a str" := by
  obtain ⟨out, be, heq⟩ := processHeaders_append_ok item pre ((hn, hv) :: rest) hok
  rw [heq]
  simp [processHeaders, hact, hbad]

/-- C4: when a rule matches and some inbound header — the first one whose
processing deviates, all headers before it processing cleanly — resolves to
a `Replace` action whose regex does not match the header's (string) value,
the handler responds 400 with empty body, dispatches nothing upstream (zero
upstream calls, no partially-built request), and emits exactly one error
record naming the rule, the composed URL and the failing header. -/
theorem replace_mismatch_400 (items : List ProxyItem) (host : String) (req : Request)
    (upstream : Except String UpstreamResp) (item : ProxyItem)
    (pre rest : List (String × List Nat)) (hn : String) (hv : List Nat)
    (re : Regex) (rep v : String)
    (hroute : route items (host ++ req.uri) = some item)
    (hsplit : req.headers = pre ++ (hn, hv) :: rest)
    (hok : ∀ x ∈ pre, headerOk item x = true)
    (hact : resolveAction item hn = .Replace re rep)
    (hts : to_str hv = some v)
    (hnm : re.is_match v = false) :
    handle_request items host req upstream =
      ⟨⟨400, [], .empty⟩,
       [⟨.err, req.method, host ++ req.uri, some item.name, none, some 400, none,
         some (lowerStr hn)⟩], none⟩ := by
  have hph : processHeaders item req.headers = .reject (lowerStr hn) := by
    rw [hsplit]
    exact processHeaders_split_reject item pre rest hn hv re rep v hok hact hts hnm
  simp only [handle_request, handle, hroute, hph]

theorem replace_mismatch_400_witness :
    handle_request [demoItemRepl] "h" ⟨"GET", "/u", [("Other", strBytes "v"),
        ("X-Token", strBytes "nope")]⟩ (.ok ⟨200, []⟩) =
      ⟨⟨400, [], .empty⟩,
       [⟨.err, "GET", "h" ++ "/u", some demoItemRepl.name, none, some 400, none,
         some (lowerStr "X-Token")⟩], none⟩ :=
  replace_mismatch_400 [demoItemRepl] "h"
    ⟨"GET", "/u", [("Other", strBytes "v"), ("X-Token", strBytes "nope")]⟩ (.ok ⟨200, []⟩)
    demoItemRepl [("Other", strBytes "v")] [] "X-Token" (strBytes "nope")
    ⟨litRE "secret"⟩ "ok" "nope" (by decide) rfl (by decide) (by decide) (by decide) (by decide)

/-- C9: when a rule matches and the first deviating header resolves to a
`Replace` action but its value is not a valid visible-ASCII string, the
`to_str()?` aborts the request with a 500 internal-error response (not a
400) before the Replace regex is ever evaluated, with no upstream call and a
single 500 error record. -/
theorem replace_invalid_value_500 (items : List ProxyItem) (host : String) (req : Request)
    (upstream : Except String UpstreamResp) (item : ProxyItem)
    (pre rest : List (String × List Nat)) (hn : String) (hv : List Nat)
    (re : Regex) (rep : String)
    (hroute : route items (host ++ req.uri) = some item)
    (hsplit : req.headers = pre ++ (hn, hv) :: rest)
    (hok : ∀ x ∈ pre, headerOk item x = true)
    (hact : resolveAction item hn = .Replace re rep)
    (hbad : to_str hv = none) :
    handle_request items host req upstream =
      ⟨⟨500, [], .empty⟩,
       [⟨.err, req.method, req.uri, none, none, some 500,
         some "failed to convert header to a str", none⟩], none⟩ := by
  have hph : processHeaders item req.headers = .errValue "failed to convert header to a str" := by
    rw [hsplit]
    exact processHeaders_split_errValue item pre rest hn hv re rep hok hact hbad
  simp only [handle_request, handle, hroute, hph, List.nil_append]

theorem replace_invalid_value_500_witness :
    handle_request [demoItemRepl] "h" ⟨"GET", "/u", [("X-Token", [200])]⟩ (.ok ⟨200, []⟩) =
      ⟨⟨500, [], .empty⟩,
       [⟨.err, "GET", "/u", none, none, some 500,
         some "failed to convert header to a str", none⟩], none⟩ :=
  replace_invalid_value_500 [demoItemRepl] "h" ⟨"GET", "/u", [("X-Token", [200])]⟩
    (.ok ⟨200, []⟩) demoItemRepl [] [] "X-Token" [200] ⟨litRE "secret"⟩ "ok"
    (by decide) rfl (by simp) (by decide) (by decide)

/-- C8 (amended): every handled request emits exactly one status-bearing
structured record, and every emitted record carries the request method and a
requested URL (the composed URL, or the bare request-target on the outer
500 record); at most two records are emitted in total, and a second record
occurs only on the transport-failure path, where a failure-site error record
without a status field precedes the 500 record — so a transport failure
emits two records, not exactly one. -/
theorem one_status_log_per_outcome (items : List ProxyItem) (host : String) (req : Request)
    (upstream : Except String UpstreamResp) (r : FinalResult)
    (hr : r = handle_request items host req upstream) :
    ((r.logs.filter (fun l => l.status.isSome)).length = 1) ∧
    (∀ l ∈ r.logs, l.method = req.method ∧
      (l.requested = host ++ req.uri ∨ l.requested = req.uri)) ∧
    r.logs.length ≤ 2 ∧
    (r.logs.length = 2 →
      r.response.status = 500 ∧
      ∃ l1 l2, r.logs = [l1, l2] ∧ l1.status = none ∧ l1.level = .err ∧
        l1.errDetail.isSome = true ∧ l2.status = some 500 ∧ l2.requested = req.uri) := by
  subst hr
  simp only [handle_request, handle]
  cases hroute : route items (host ++ req.uri) with
  | none => simp [List.filter]
  | some item =>
    cases hph : processHeaders item req.headers with
    | reject lname => simp [hph, List.filter]
    | errValue m => simp [hph, List.filter]
    | ok out be =>
      simp only [hph]
      cases be with
      | some e => simp [List.filter]
      | none =>
        cases upstream with
        | error e =>
          refine ⟨by simp [List.filter], by simp, by simp, fun _ => ⟨rfl, ?_⟩⟩
          exact ⟨_, _, rfl, rfl, rfl, rfl, rfl, rfl⟩
        | ok ur => simp [List.filter]

theorem transport_failure_logs_twice :
    (handle_request [demoItem] "h" demoReq (.error "connection refused")).logs.length = 2 := by
  decide

theorem one_status_log_per_outcome_witness :
    (((handle_request [demoItem] "h" demoReq (.error "boom")).logs.filter
        (fun l => l.status.isSome)).length = 1) ∧
    (handle_request [demoItem] "h" demoReq (.error "boom")).logs.length ≤ 2 :=
  ⟨(one_status_log_per_outcome [demoItem] "h" demoReq (.error "boom") _ rfl).1,
   (one_status_log_per_outcome [demoItem] "h" demoReq (.error "boom") _ rfl).2.2.1⟩

theorem listStartsWith_append (l t : List Char) : listStartsWith (l ++ t) l = true := by
  induction l with
  | nil => cases t <;> rfl
  | cons c cs ih => simp [listStartsWith, ih]

theorem containsSub_of_startsWith (hay needle : List Char)
    (h : listStartsWith hay needle = true) : listContainsSub hay needle = true := by
  cases hay with
  | nil => simpa [listContainsSub] using h
  | cons c rest => simp [listContainsSub, h]

theorem containsSub_append_left (pre hay needle : List Char)
    (h : listContainsSub hay needle = true) :
    listContainsSub (pre ++ hay) needle = true := by
  induction pre with
  | nil => simpa using h
  | cons c cs ih => simp [listContainsSub, ih]

theorem regexNew_error_contains (p e : String) (h : Regex.new p = .error e) :
    strContains e p = true := by
  unfold Regex.new at h
  cases hp : parseAltF (3 * p.length + 8) p.data 0 with
  | error e0 =>
    rw [hp] at h
    cases h
    unfold strContains
    simp only [String.data_append, List.append_assoc]
    exact containsSub_append_left _ _ _
      (containsSub_of_startsWith _ _ (listStartsWith_append p.data _))
  | ok res =>
    obtain ⟨re, csr, g⟩ := res
    rw [hp] at h
    cases csr with
    | nil => cases h
    | cons c cs =>
      cases h
      unfold strContains
      simp only [String.data_append, List.append_assoc]
      exact containsSub_append_left _ _ _
        (containsSub_of_startsWith _ _ (listStartsWith_append p.data _))

theorem compileHeaderAction_error (hc : ProxyHeaderConfig) (e : String)
    (h : compileHeaderAction hc = .error e) :
    ∃ m r, hc = .Replace m r ∧ Regex.new m = .error e := by
  cases hc with
  | Passthrough => simp [compileHeaderAction] at h
  | Ignore => simp [compileHeaderAction] at h
  | Replace m r =>
    cases hre : Regex.new m with
    | ok re => simp [compileHeaderAction, hre] at h
    | error e2 =>
      simp only [compileHeaderAction, hre] at h
      cases h
      exact ⟨m, r, rfl, hre⟩

theorem headerPatterns_tail_mem (hd : String × ProxyHeaderConfig)
    (rest : List (String × ProxyHeaderConfig)) (p : String)
    (h : p ∈ headerPatterns rest) : p ∈ headerPatterns (hd :: rest) := by
  obtain ⟨hn, hc⟩ := hd
  cases hc with
  | Passthrough => simpa [headerPatterns, List.filterMap_cons] using h
  | Ignore => simpa [headerPatterns, List.filterMap_cons] using h
  | Replace m r =>
    simp only [headerPatterns, List.filterMap_cons] at h ⊢
    exact List.mem_cons_of_mem _ h

theorem compileHeaders_error_src (l : List (String × ProxyHeaderConfig)) :
    ∀ acts fb e, compileHeaders l acts fb = .error e →
      ∃ p, p ∈ headerPatterns l ∧ Regex.new p = .error e := by
  induction l with
  | nil => intro acts fb e h; simp [compileHeaders] at h
  | cons a rest ih =>
    obtain ⟨hn, hc⟩ := a
    intro acts fb e h
    cases hca : compileHeaderAction hc with
    | error e2 =>
      simp only [compileHeaders, hca, Bind.bind, Except.bind] at h
      cases h
      obtain ⟨m, r, hcn, hre⟩ := compileHeaderAction_error hc _ hca
      subst hcn
      exact ⟨m, by simp [headerPatterns, List.filterMap_cons], hre⟩
    | ok act =>
      simp only [compileHeaders, hca, Bind.bind, Except.bind] at h
      by_cases hd : hn = "$default"
      · rw [if_pos hd] at h
        obtain ⟨p, hp, hre⟩ := ih _ _ _ h
        exact ⟨p, headerPatterns_tail_mem _ _ _ hp, hre⟩
      · rw [if_neg hd] at h
        obtain ⟨p, hp, hre⟩ := ih _ _ _ h
        exact ⟨p, headerPatterns_tail_mem _ _ _ hp, hre⟩

theorem patternsOfList_head_mem (name : String) (item : ProxyItemConfig)
    (rest : List (String × ProxyItemConfig)) (p : String) (h : p ∈ cfgPatterns item) :
    p ∈ patternsOfList ((name, item) :: rest) := by
  simp only [patternsOfList, List.map_cons, List.flatten_cons, List.mem_append]
  exact Or.inl h

theorem patternsOfList_tail_mem (hd : String × ProxyItemConfig)
    (rest : List (String × ProxyItemConfig)) (p : String) (h : p ∈ patternsOfList rest) :
    p ∈ patternsOfList (hd :: rest) := by
  simp only [patternsOfList, List.map_cons, List.flatten_cons, List.mem_append]
  exact Or.inr h

theorem compileItems_error_src (l : List (String × ProxyItemConfig)) :
    ∀ e, compileItems l = .error e →
      ∃ p, p ∈ patternsOfList l ∧ Regex.new p = .error e := by
  induction l with
  | nil => intro e h; simp [compileItems] at h
  | cons a rest ih =>
    obtain ⟨name, item⟩ := a
    intro e h
    cases hre : Regex.new item.rmatch with
    | error e2 =>
      simp only [compileItems, hre, Bind.bind, Except.bind] at h
      cases h
      exact ⟨item.rmatch, patternsOfList_head_mem name item rest _
        (List.mem_cons_self _ _), hre⟩
    | ok re =>
      cases hch : compileHeaders item.headers [] .Ignore with
      | error e2 =>
        simp only [compileItems, hre, hch, Bind.bind, Except.bind] at h
        cases h
        obtain ⟨p, hp, hpe⟩ := compileHeaders_error_src item.headers [] .Ignore _ hch
        exact ⟨p, patternsOfList_head_mem name item rest p
          (List.mem_cons_of_mem _ hp), hpe⟩
      | ok pair =>
        obtain ⟨acts, fb⟩ := pair
        cases hti : compileItems rest with
        | error e2 =>
          simp only [compileItems, hre, hch, hti, Bind.bind, Except.bind] at h
          cases h
          obtain ⟨p, hp, hpe⟩ := ih _ hti
          exact ⟨p, patternsOfList_tail_mem _ _ _ hp, hpe⟩
        | ok tail =>
          simp only [compileItems, hre, hch, hti, Bind.bind, Except.bind] at h
          cases h

theorem compileHeaders_errors_of_bad (l : List (String × ProxyHeaderConfig)) :
    ∀ acts fb, (∃ x ∈ l, headerCfgBad x.2 = true) →
      ∃ e, compileHeaders l acts fb = .error e := by
  induction l with
  | nil => intro acts fb h; simp at h
  | cons a rest ih =>
    obtain ⟨hn, hc⟩ := a
    intro acts fb h
    cases hca : compileHeaderAction hc with
    | error e => exact ⟨e, by simp [compileHeaders, hca, Bind.bind, Except.bind]⟩
    | ok act =>
      have hbad : ∃ x ∈ rest, headerCfgBad x.2 = true := by
        rcases h with ⟨x, hx, hxb⟩
        cases List.mem_cons.mp hx with
        | inl heq =>
          exfalso
          subst heq
          cases hc with
          | Passthrough => simp [headerCfgBad] at hxb
          | Ignore => simp [headerCfgBad] at hxb
          | Replace m r =>
            simp only [headerCfgBad, regexBad] at hxb
            cases hrm : Regex.new m with
            | ok re2 => rw [hrm] at hxb; simp at hxb
            | error e2 => simp [compileHeaderAction, hrm] at hca
        | inr h2 => exact ⟨x, h2, hxb⟩
      by_cases hd : hn = "$default"
      · obtain ⟨e, he⟩ := ih acts act hbad
        exact ⟨e, by simp [compileHeaders, hca, Bind.bind, Except.bind, if_pos hd, he]⟩
      · obtain ⟨e, he⟩ := ih (insertAssoc acts (lowerStr hn) act) fb hbad
        exact ⟨e, by simp [compileHeaders, hca, Bind.bind, Except.bind, if_neg hd, he]⟩

theorem compileItems_errors_of_bad (l : List (String × ProxyItemConfig))
    (h : ∃ x ∈ l, itemCfgBad x.2 = true) : ∃ e, compileItems l = .error e := by
  induction l with
  | nil => simp at h
  | cons a rest ih =>
    obtain ⟨name, item⟩ := a
    cases hre : Regex.new item.rmatch with
    | error e => exact ⟨e, by simp [compileItems, hre, Bind.bind, Except.bind]⟩
    | ok re =>
      cases hch : compileHeaders item.headers [] .Ignore with
      | error e => exact ⟨e, by simp [compileItems, hre, hch, Bind.bind, Except.bind]⟩
      | ok pair =>
        obtain ⟨acts, fb⟩ := pair
        have hbad : ∃ x ∈ rest, itemCfgBad x.2 = true := by
          rcases h with ⟨x, hx, hxb⟩
          cases List.mem_cons.mp hx with
          | inl heq =>
            exfalso
            subst heq
            simp only [itemCfgBad, Bool.or_eq_true] at hxb
            cases hxb with
            | inl hb => rw [regexBad, hre] at hb; simp at hb
            | inr hb =>
              rw [List.any_eq_true] at hb
              obtain ⟨e2, he2⟩ := compileHeaders_errors_of_bad item.headers [] .Ignore hb
              rw [he2] at hch
              cases hch
          | inr h2 => exact ⟨x, h2, hxb⟩
        obtain ⟨e, he⟩ := ih hbad
        exact ⟨e, by simp [compileItems, hre, hch, he, Bind.bind, Except.bind]⟩

/-- C6 (amended): a rule-definition mapping containing at least one invalid
pattern (a rule's match pattern or a header `Replace` pattern) never
compiles: `parse_config` returns an error — zero compiled rules, never a
partial set — and the error message carries the offending pattern, though
not the offending rule's name (nothing in `parse_config` attaches the rule
name to the propagated regex error). -/
theorem compile_all_or_nothing (cfg : Config)
    (h : ∃ x ∈ cfg.items, itemCfgBad x.2 = true) :
    exceptIsOk (parse_config cfg) = false ∧ errorNamesPattern cfg = true := by
  obtain ⟨e, he⟩ := compileItems_errors_of_bad cfg.items h
  obtain ⟨p, hp, hpe⟩ := compileItems_error_src cfg.items e he
  constructor
  · simp [parse_config, exceptIsOk, he]
  · simp only [errorNamesPattern, parse_config, he]
    rw [List.any_eq_true]
    refine ⟨p, hp, ?_⟩
    simp [regexBad, hpe, regexNew_error_contains p e hpe]

theorem compile_all_or_nothing_witness :
    exceptIsOk (parse_config cfgBadDemo) = false ∧ errorNamesPattern cfgBadDemo = true :=
  compile_all_or_nothing cfgBadDemo (by decide)

theorem parse_error_omits_rule_name :
    parse_config cfgBadDemo = .error "regex parse error: (: unclosed group" ∧
    strContains "regex parse error: (: unclosed group" "(" = true ∧
    strContains "regex parse error: (: unclosed group" "broken" = false := by
  exact ⟨by decide, by decide, by decide⟩

end Reproxy
